import Mathlib

/-!
# Verification of the `url_strip` URL-normalisation library

This file is a shallow embedding of the core of the `url_strip` Python
library (`src/url_strip/_types.py`, `_strip.py`, `_special_cases.py`)
together with proofs about the claims of its specification.

Modelling conventions:
* Python's duck-typed `Result` two-tuples `("ok", v) / ("err", e)` become the
  inductive `Res` below.
* Uncaught Python exceptions (`ValueError` from `list.index`, from tuple
  unpacking, and from `bytes([...])` range checks) are modelled with an
  `Except PyExc` layer: `.error e` is an exception propagating out of the
  function, `.ok r` is a normal return of the `Result` value `r`.
* `re.match` on the module's `URL_REGEX` is embedded as a fuelled
  backtracking matcher over a regex AST (`RE`) that mirrors Python's `re`
  semantics for this pattern: anchored at position 0, greedy quantifiers,
  left-first alternation, captures restored on backtracking.  The word
  class `\w` used by `\b` is modelled as ASCII `[a-zA-Z0-9_]`; all inputs
  considered in concrete theorems are ASCII, where this coincides with
  Python's unicode-aware `\w`.
* Machine text is `String`/`List Char`; bytes are `Nat` values < 256.
-/

set_option maxRecDepth 20000

namespace UrlStrip

/-! ## Result type (`_result.py` / `_types.py`)

`Result = Union[Tuple[Literal["ok"], T], Tuple[Literal["err"], E]]`. -/

inductive Res (T : Type) (E : Type) where
  | ok (value : T)
  | err (value : E)
deriving DecidableEq, Repr

/-! ## Uncaught Python exceptions -/

/-- Uncaught `ValueError`s the embedded code can raise:
* `unpackMismatch` — `key, value = i.split("=")` failing in `_parse_query_str`;
* `notInList elem` — `list.index(elem)` with `elem` absent
  (`amazon_strip` / `ebay_strip`);
* `byteOutOfRange` — `bytes([data])` with `data` outside `range(0, 256)`
  (`_expand_format_chars` when `int(val, 16)` parses a negative value). -/
inductive PyExc where
  | unpackMismatch
  | notInList (elem : String)
  | byteOutOfRange
deriving DecidableEq, Repr

/-! ## Error values (`UrlError` / `UrlParseError`)

`UrlError(msg)` is `.url msg`; the subclass `UrlParseError(msg)` is
`.parse msg`; `UrlParseError(UnicodeDecodeError)` — the UTF-8 failure of
`_expand_format_chars`, which carries the decode error object rather than a
message string — is `.parseUtf8 bs` carrying the undecodable byte string. -/
inductive UErr where
  | url (msg : String)
  | parse (msg : String)
  | parseUtf8 (bs : List Nat)
deriving DecidableEq, Repr

/-! ## The structured URL value (`HttpUrl` dataclass) -/

structure HttpUrl where
  domain : String
  path : String
  query : List (String × String)
  fragment : Option String
deriving DecidableEq, Repr

/-! ## Character classes of `URL_REGEX` (`_types.py` lines 16-31)

`URL_CHARS = r"([a-zA-z0-9\-\.\_\-]|%[0-9a-fA-F]{2})"`.  Note the class
ranges are `a-z`, `A-z` (a typo range reaching char 122, hence including
`[ \ ] ^ _` and the backquote), `0-9`, plus the literals `-`, `.`, `_`. -/

/-- The character class `[a-zA-z0-9\-\.\_\-]` (codepoint ranges 97-122,
65-122, 48-57, and the literals `-` `.` `_`). -/
def isClsChar (c : Char) : Bool :=
  (97 ≤ c.toNat && c.toNat ≤ 122) || (65 ≤ c.toNat && c.toNat ≤ 122) ||
  (48 ≤ c.toNat && c.toNat ≤ 57) || c == '-' || c == '.' || c == '_'

/-- Hexadecimal digit class `[0-9a-fA-F]`. -/
def isHexChar (c : Char) : Bool :=
  (48 ≤ c.toNat && c.toNat ≤ 57) || (97 ≤ c.toNat && c.toNat ≤ 102) ||
  (65 ≤ c.toNat && c.toNat ≤ 70)

/-- The regex word class `\w`, modelled as ASCII `[a-zA-Z0-9_]`
(see the header note on unicode). -/
def isWordChar (c : Char) : Bool :=
  (97 ≤ c.toNat && c.toNat ≤ 122) || (65 ≤ c.toNat && c.toNat ≤ 90) ||
  (48 ≤ c.toNat && c.toNat ≤ 57) || c == '_'

/-! ## Regex AST and backtracking matcher -/

/-- The four named capture groups of `URL_REGEX`. -/
inductive GTag where
  | domain
  | path
  | query
  | fragment
deriving DecidableEq, Repr

/-- Regex AST: enough structure for `URL_REGEX`.  Unnamed capturing groups
of the Python pattern have no observable effect (no backreferences are
used) and are not represented. -/
inductive RE where
  | eps
  | sym (cls : Char → Bool)
  | cat (a b : RE)
  | alt (a b : RE)
  | opt (a : RE)
  | star (a : RE)
  | group (g : GTag) (a : RE)
  | wordB

/-- Greedy `+`, as in Python: one occurrence then a greedy `*`. -/
def RE.plus (a : RE) : RE := .cat a (.star a)

/-- Literal single character. -/
def RE.chr (c : Char) : RE := .sym (fun x => x == c)

/-- Captured text of the four named groups (`None` when the group did not
participate in the match). -/
structure Caps where
  domain : Option (List Char)
  path : Option (List Char)
  query : Option (List Char)
  fragment : Option (List Char)
deriving DecidableEq, Repr

def Caps.empty : Caps := ⟨none, none, none, none⟩

def Caps.set (caps : Caps) (g : GTag) (v : List Char) : Caps :=
  match g with
  | .domain => { caps with domain := some v }
  | .path => { caps with path := some v }
  | .query => { caps with query := some v }
  | .fragment => { caps with fragment := some v }

/-- Word boundary test: exactly one of the previous/next characters is a
word character (string edges count as non-word). -/
def atBoundary (prev : Option Char) (rest : List Char) : Bool :=
  let pw := match prev with | none => false | some c => isWordChar c
  let nw := match rest with | [] => false | c :: _ => isWordChar c
  pw != nw

/-- Result of a match: end offset of the whole match and the captures. -/
abbrev MatchRes := Nat × Caps

/-- Continuations of the backtracking matcher: previous character, remaining
input, captures so far. -/
abbrev Cont := Option Char → List Char → Caps → Option MatchRes

/-- Fuelled CPS backtracking matcher mirroring Python `re` semantics for
this pattern: greedy `?`/`*` (try the longer branch first), left-first
alternation, captures threaded through continuations (hence restored on
backtracking).  The fuel only bounds recursion depth; `reFuel` below is
always sufficient for this pattern. -/
def matchRE : Nat → RE → Option Char → List Char → Caps → Cont → Option MatchRes
  | 0, _, _, _, _, _ => none
  | _ + 1, .eps, prev, rest, caps, k => k prev rest caps
  | _ + 1, .sym cls, prev, rest, caps, k =>
    match rest with
    | [] => none
    | c :: rest' => if cls c then k (some c) rest' caps else none
  | fuel + 1, .cat a b, prev, rest, caps, k =>
    matchRE fuel a prev rest caps (fun pv rs cs => matchRE fuel b pv rs cs k)
  | fuel + 1, .alt a b, prev, rest, caps, k =>
    match matchRE fuel a prev rest caps k with
    | some res => some res
    | none => matchRE fuel b prev rest caps k
  | fuel + 1, .opt a, prev, rest, caps, k =>
    match matchRE fuel a prev rest caps k with
    | some res => some res
    | none => k prev rest caps
  | fuel + 1, .star a, prev, rest, caps, k =>
    match matchRE fuel a prev rest caps
        (fun pv rs cs => matchRE fuel (.star a) pv rs cs k) with
    | some res => some res
    | none => k prev rest caps
  | fuel + 1, .group g a, prev, rest, caps, k =>
    matchRE fuel a prev rest caps
      (fun pv rs cs => k pv rs (cs.set g (rest.take (rest.length - rs.length))))
  | _ + 1, .wordB, prev, rest, caps, k =>
    if atBoundary prev rest then k prev rest caps else none

/-! ## `URL_REGEX` as an AST -/

/-- The subregex `URL_CHARS`: a class character or a `%XX` escape. -/
def urlCharRE : RE :=
  .alt (.sym isClsChar) (.cat (.chr '%') (.cat (.sym isHexChar) (.sym isHexChar)))

/-- Domain capture: `(?P<domain>URL_CHARS+)`. -/
def domainRE : RE := .plus urlCharRE

/-- Inner regex of `PATH_CAPTURE`: `(/(URL_CHARS|\:)*)+`. -/
def pathRE : RE := .plus (.cat (.chr '/') (.star (.alt urlCharRE (.chr ':'))))

/-- Key-value pair `QUERY_KV`: `URL_CHARS+=URL_CHARS+`. -/
def kvRE : RE := .cat (.plus urlCharRE) (.cat (.chr '=') (.plus urlCharRE))

/-- Inner regex of the `query` group: `KV(&KV)*`. -/
def queryInnerRE : RE := .cat kvRE (.star (.cat (.chr '&') kvRE))

/-- Inner regex of the `fragment` group: `#URL_CHARS+`. -/
def fragRE : RE := .cat (.chr '#') (.plus urlCharRE)

/-- The literal `http` followed by `s?` and `://`. -/
def schemeRE : RE :=
  .cat (.chr 'h') (.cat (.chr 't') (.cat (.chr 't') (.cat (.chr 'p')
    (.cat (.opt (.chr 's')) (.cat (.chr ':') (.cat (.chr '/') (.chr '/')))))))

/-- The full `URL_REGEX`:
`\b(?:https?://)DOMAIN_CAPTURE PATH_CAPTURE? QUERY_CAPTURE? FRAGMENT_CAPTURE?\b`. -/
def urlRegex : RE :=
  .cat .wordB (.cat schemeRE (.cat (.group .domain domainRE)
    (.cat (.opt (.group .path pathRE))
      (.cat (.opt (.cat (.chr '?') (.group .query queryInnerRE)))
        (.cat (.opt (.group .fragment fragRE)) .wordB)))))

/-- Fuel bound: the matcher's recursion depth along any path is linear in
the input length with a small factor; this bound is comfortably sufficient. -/
def reFuel (cs : List Char) : Nat := 1000 + 100 * cs.length

/-- Anchored `URL_REGEX.match`: it tries position 0 only, returning at position 0, returning the end offset
of the match and the named captures, or `none`. -/
def reMatch (cs : List Char) : Option MatchRes :=
  matchRE (reFuel cs) urlRegex none cs Caps.empty
    (fun _ rs caps => some (cs.length - rs.length, caps))

/-! ## Python string helpers -/

/-- Python `str.split(sep)` for a single-character separator (empty parts
kept; `"".split(sep) == [""]`). -/
def splitChar (sep : Char) : List Char → List (List Char)
  | [] => [[]]
  | c :: rest =>
    if c = sep then [] :: splitChar sep rest
    else
      match splitChar sep rest with
      | [] => [[c]]
      | p :: ps => (c :: p) :: ps

/-- Python `str.rstrip("/")`: drop all trailing `/` characters. -/
def rstripSlash (cs : List Char) : List Char :=
  (cs.reverse.dropWhile (· = '/')).reverse

/-- Python `str.startswith(pre)`. -/
def pyStartswith (s pre : String) : Bool :=
  pre.toList.isPrefixOf s.toList

/-- Python `str.endswith(suf)`. -/
def pyEndswith (s suf : String) : Bool :=
  suf.toList.isSuffixOf s.toList

/-! ## `HttpUrl._parse_query_str` (`_types.py` lines 178-190)

For each `&`-separated piece the code runs `key, value = i.split("=")`,
which raises an uncaught `ValueError` unless the split has exactly two
elements; the exception is the `.error .unpackMismatch` branch. -/

def parseQueryParts : List (List Char) → Except PyExc (List (String × String))
  | [] => .ok []
  | p :: ps =>
    match splitChar '=' p with
    | [k, v] =>
      match parseQueryParts ps with
      | .error e => .error e
      | .ok rest => .ok ((String.mk k, String.mk v) :: rest)
    | _ => .error .unpackMismatch

def parse_query_str (query_str : Option (List Char)) :
    Except PyExc (List (String × String)) :=
  match query_str with
  | none => .ok []
  | some qs => parseQueryParts (splitChar '&' qs)

/-! ## `HttpUrl.from_str` (`_types.py` lines 260-286) -/

def noMatchMsg : String := "Regex could not find url match"
def incompleteMsg : String := "Regex capture does not span entire string passed"
def noDomainMsg : String := "Could not capture domain group"

def from_str (url : String) : Except PyExc (Res HttpUrl UErr) :=
  match reMatch (rstripSlash url.toList) with
  | none => .ok (.err (.parse noMatchMsg))
  | some (stop, caps) =>
    if (0, stop) ≠ (0, (rstripSlash url.toList).length) then
      .ok (.err (.parse incompleteMsg))
    else
      match caps.domain with
      | none => .ok (.err (.parse noDomainMsg))
      | some d =>
        match parse_query_str caps.query with
        | .error e => .error e
        | .ok query =>
          .ok (.ok ⟨String.mk d, String.mk (caps.path.getD []), query,
            caps.fragment.map String.mk⟩)

/-! ## `HttpUrl.into_str` (`_types.py` lines 234-241) -/

/-- Python `"&".join(parts)`. -/
def joinAmp : List String → String
  | [] => ""
  | [x] => x
  | x :: y :: rest => x ++ "&" ++ joinAmp (y :: rest)

/-- Embedding of `into_str(self, *, protocol="https")`; the protocol argument is made
explicit here, `into_str_default` applies the default. -/
def into_str (u : HttpUrl) (protocol : String) : String :=
  let query_str :=
    if u.query.isEmpty then ""
    else "?" ++ joinAmp (u.query.map (fun p => p.1 ++ "=" ++ p.2))
  let fragment_str := u.fragment.getD ""
  protocol ++ "://" ++ u.domain ++ u.path ++ query_str ++ fragment_str

def into_str_default (u : HttpUrl) : String := into_str u "https"

/-! ## `_strip.py`: `strip_last_query` and `strip_url` -/

/-- Embedding of `strip_last_query`: `copy.copy(url)` then `url.query = url.query[:1]`
(the original object is untouched; the embedding is the resulting value). -/
def strip_last_query (url : HttpUrl) : Res HttpUrl UErr :=
  .ok { url with query := url.query.take 1 }

/-! ## `_special_cases.py` -/

def no_query (v : HttpUrl) : HttpUrl := ⟨v.domain, v.path, [], v.fragment⟩

/-- Lookup `dict(v.query)[k]`: later pairs override earlier ones. -/
def dictGet (pairs : List (String × String)) (k : String) : Option String :=
  (pairs.reverse.find? (fun p => p.1 == k)).map (·.2)

def youtube_strip (v : HttpUrl) : Except PyExc (Res HttpUrl UErr) :=
  if v.path = "/watch" then
    match dictGet v.query "v" with
    | none => .ok (.err (.url "Address was a watch link, but could not find video id"))
    | some vid => .ok (.ok ⟨"youtu.be", "/" ++ vid, [], v.fragment⟩)
  else .ok (.ok (no_query v))

/-- Model of `splitpath[idx]` under `try/except IndexError`: the element,
or `none` when the index is out of range. -/
def tryGetItem (l : List String) (i : Nat) : Option String := l.get? i

/-- Embedding of `amazon_strip`: `splitpath.index("dp")` raises an uncaught `ValueError`
when `"dp"` is absent (the `!= -1` guard is dead: `list.index` never
returns `-1`). -/
def amazon_strip (v : HttpUrl) : Except PyExc (Res HttpUrl UErr) :=
  match ((splitChar '/' v.path.toList).map String.mk).indexOf? "dp" with
  | none => .error (.notInList "dp")
  | some idx =>
    match tryGetItem ((splitChar '/' v.path.toList).map String.mk) (idx + 1) with
    | none => .ok (.ok (no_query v))
    | some product_id => .ok (.ok ⟨v.domain, "/dp/" ++ product_id, [], v.fragment⟩)

/-- Check `all(c in _number_set for c in i)` — true of the empty string too. -/
def allDigits (s : String) : Bool :=
  s.toList.all (fun c => 48 ≤ c.toNat && c.toNat ≤ 57)

/-- Embedding of `ebay_strip`: `splitpath.index("itm")` likewise raises when `"itm"` is
absent; otherwise the first all-digit element from `itm` onwards is taken. -/
def ebay_strip (v : HttpUrl) : Except PyExc (Res HttpUrl UErr) :=
  match ((splitChar '/' v.path.toList).map String.mk).indexOf? "itm" with
  | none => .error (.notInList "itm")
  | some item_idx =>
    match (((splitChar '/' v.path.toList).map String.mk).drop item_idx).find? allDigits with
    | some number_id => .ok (.ok ⟨v.domain, "/itm/" ++ number_id, [], v.fragment⟩)
    | none => .ok (.err (.url "Found item identifier, but could not find item id"))

def no_queryable (v : HttpUrl) : Except PyExc (Res HttpUrl UErr) :=
  .ok (.ok (no_query v))

/-- The registry `special_cases_map` built by the `@register` decorators of
`_special_cases.py` (all 13 keys are distinct, so insertion order is
irrelevant to lookup). -/
def special_cases_lookup (d : String) :
    Option (HttpUrl → Except PyExc (Res HttpUrl UErr)) :=
  if d = "youtube.com" ∨ d = "www.youtube.com" then some youtube_strip
  else if d = "www.amazon.com" ∨ d = "www.amazon.co.uk" then some amazon_strip
  else if d = "ebay.com" ∨ d = "www.ebay.com" ∨ d = "www.ebay.co.uk" ∨
      d = "www.ebay.it" ∨ d = "www.ebay.de" then some ebay_strip
  else if d = "twitter.com" ∨ d = "www.reddit.com" ∨ d = "www.tiktok.com" ∨
      d = "vm.tiktok.com" then some no_queryable
  else none

/-- The scheme-check error of `strip_url`. -/
def notHttpErr : UErr := .url "Url does not start with http(s)"

/-- Dispatch stage of `strip_url` (`_strip.py` lines 39-42): registered
domains go to their strip function, the rest to `strip_last_query`. -/
def strip_dispatch (u : HttpUrl) : Except PyExc (Res HttpUrl UErr) :=
  match special_cases_lookup u.domain with
  | some f => f u
  | none => .ok (strip_last_query u)

/-- Embedding of `strip_url` (`_strip.py` lines 24-42). -/
def strip_url (url_str : String) : Except PyExc (Res HttpUrl UErr) :=
  if ¬ pyStartswith url_str "http" then .ok (.err notHttpErr)
  else
    match from_str url_str with
    | .error e => .error e
    | .ok (.err e) => .ok (.err e)
    | .ok (.ok u) => strip_dispatch u

/-! ## UTF-8 (Python `str.encode("utf8")` / `bytes.decode("utf8")`)

Both directions are the strict codec: the decoder rejects continuation
errors, overlong forms, surrogates and values above `U+10FFFF`, exactly as
Python's strict `utf8` decoder does. -/

def utf8Encode (c : Char) : List Nat :=
  let n := c.toNat
  if n < 0x80 then [n]
  else if n < 0x800 then
    [0xC0 + n / 0x40, 0x80 + n % 0x40]
  else if n < 0x10000 then
    [0xE0 + n / 0x1000, 0x80 + n / 0x40 % 0x40, 0x80 + n % 0x40]
  else
    [0xF0 + n / 0x40000, 0x80 + n / 0x1000 % 0x40, 0x80 + n / 0x40 % 0x40,
      0x80 + n % 0x40]

/-- Is `b` a UTF-8 continuation byte `10xxxxxx`? -/
def isCont (b : Nat) : Bool := 0x80 ≤ b && b ≤ 0xBF

def utf8Decode : List Nat → Option (List Char)
  | [] => some []
  | b :: rest =>
    if b < 0x80 then (utf8Decode rest).map (Char.ofNat b :: ·)
    else if 0xC2 ≤ b && b ≤ 0xDF then
      match rest with
      | b1 :: rest' =>
        if isCont b1 then
          (utf8Decode rest').map (Char.ofNat ((b - 0xC0) * 0x40 + (b1 - 0x80)) :: ·)
        else none
      | _ => none
    else if 0xE0 ≤ b && b ≤ 0xEF then
      match rest with
      | b1 :: b2 :: rest' =>
        let lo1 := if b = 0xE0 then 0xA0 else 0x80
        let hi1 := if b = 0xED then 0x9F else 0xBF
        if (lo1 ≤ b1 && b1 ≤ hi1) && isCont b2 then
          (utf8Decode rest').map
            (Char.ofNat ((b - 0xE0) * 0x1000 + (b1 - 0x80) * 0x40 + (b2 - 0x80)) :: ·)
        else none
      | _ => none
    else if 0xF0 ≤ b && b ≤ 0xF4 then
      match rest with
      | b1 :: b2 :: b3 :: rest' =>
        let lo1 := if b = 0xF0 then 0x90 else 0x80
        let hi1 := if b = 0xF4 then 0x8F else 0xBF
        if (lo1 ≤ b1 && b1 ≤ hi1) && isCont b2 && isCont b3 then
          (utf8Decode rest').map
            (Char.ofNat ((b - 0xF0) * 0x40000 + (b1 - 0x80) * 0x1000 +
              (b2 - 0x80) * 0x40 + (b3 - 0x80)) :: ·)
        else none
      | _ => none
    else none

/-! ## Python `int(val, 16)` on two-character strings

`int` with base 16 strips surrounding whitespace and accepts an optional
sign, so e.g. `int("+5", 16) == 5`, `int(" 5", 16) == 5` and
`int("-5", 16) == -5`, while `"0x"`, `"5_"` and two-whitespace strings
raise `ValueError`.  Whitespace is modelled for the ASCII range. -/

def hexVal (c : Char) : Option Nat :=
  if 48 ≤ c.toNat && c.toNat ≤ 57 then some (c.toNat - 48)
  else if 97 ≤ c.toNat && c.toNat ≤ 102 then some (c.toNat - 87)
  else if 65 ≤ c.toNat && c.toNat ≤ 70 then some (c.toNat - 55)
  else none

def isPySpace (c : Char) : Bool :=
  c == ' ' || c == '\t' || c == '\n' || c == '\r' ||
  c == Char.ofNat 0x0B || c == Char.ofNat 0x0C

/-- Model of `int(String.mk [a, b], 16)`: `some` of the value, or `none` for
`ValueError`. -/
def intHex2 (a b : Char) : Option Int :=
  match hexVal a, hexVal b with
  | some x, some y => some ((16 * x + y : Nat) : Int)
  | _, _ =>
    if a = '+' then (hexVal b).map (fun y => (y : Int))
    else if a = '-' then (hexVal b).map (fun y => -(y : Int))
    else if isPySpace a then (hexVal b).map (fun y => (y : Int))
    else if isPySpace b then (hexVal a).map (fun x => (x : Int))
    else none

/-! ## `HttpUrl._expand_format_chars` (`_types.py` lines 192-232)

The loop walks the string with an index and a `skip` counter; on `%` it
slices the next two characters (`s[idx+1:idx+3]`), length-checks them,
parses them with `int(val, 16)` and writes `bytes([data])`; other
characters are written as their UTF-8 encoding.  `bytes([data])` raises an
uncaught `ValueError` when `data` is negative (reachable, since
`int("-5", 16)` parses). -/

def malformedMsg : String :=
  "Could not expand url element, not enough chars after % symbol"
def notHexMsg : String :=
  "Could not expand url element, chars after % symbol are not hex encoded"

def expandBytes : List Char → Nat → List Nat → Except PyExc (Res (List Nat) UErr)
  | [], _, acc => .ok (.ok acc)
  | _ :: rest, skip + 1, acc => expandBytes rest skip acc
  | c :: rest, 0, acc =>
    if c = '%' then
      match rest.take 2 with
      | [a, b] =>
        match intHex2 a b with
        | none => .ok (.err (.parse notHexMsg))
        | some v =>
          if v < 0 then .error .byteOutOfRange
          else expandBytes rest 2 (acc ++ [v.toNat])
      | _ => .ok (.err (.parse malformedMsg))
    else expandBytes rest 0 (acc ++ utf8Encode c)

def expand_format_chars (s : String) : Except PyExc (Res String UErr) :=
  match expandBytes s.toList 0 [] with
  | .error e => .error e
  | .ok (.err e) => .ok (.err e)
  | .ok (.ok bs) =>
    match utf8Decode bs with
    | some chars => .ok (.ok (String.mk chars))
    | none => .ok (.err (.parseUtf8 bs))

/-! ## Specification-side percent decoder (for claim C6)

A direct-recursion decoder following the amended claim's words: scan left
to right; on `%` consume exactly the next two characters, failing if fewer
than two remain; parse them with Python `int(·, 16)` semantics (sign- and
whitespace-tolerant), failing if the parse fails and raising the byte-range
`ValueError` if the value is negative; accumulate bytes; finally the byte
sequence must decode as UTF-8. -/

def specExpandBytes : List Char → Except PyExc (Res (List Nat) UErr)
  | [] => .ok (.ok [])
  | c :: rest =>
    if c = '%' then
      match rest with
      | a :: b :: rest' =>
        match intHex2 a b with
        | none => .ok (.err (.parse notHexMsg))
        | some v =>
          if v < 0 then .error .byteOutOfRange
          else
            match specExpandBytes rest' with
            | .error e => .error e
            | .ok (.err e) => .ok (.err e)
            | .ok (.ok bs) => .ok (.ok (v.toNat :: bs))
      | _ => .ok (.err (.parse malformedMsg))
    else
      match specExpandBytes rest with
      | .error e => .error e
      | .ok (.err e) => .ok (.err e)
      | .ok (.ok bs) => .ok (.ok (utf8Encode c ++ bs))

def specExpand (s : String) : Except PyExc (Res String UErr) :=
  match specExpandBytes s.toList with
  | .error e => .error e
  | .ok (.err e) => .ok (.err e)
  | .ok (.ok bs) =>
    match utf8Decode bs with
    | some chars => .ok (.ok (String.mk chars))
    | none => .ok (.err (.parseUtf8 bs))

/-! ## Auxiliary specification-side definitions used in claim statements -/

/-- The first query pair as a sublist: `[]` for an empty query, `[p]` for a
query starting with `p` (the spec's generic-fallback description). -/
def firstPairOnly : List (String × String) → List (String × String)
  | [] => []
  | p :: _ => [p]

/-- Specification-side rendering of a query string: empty for no pairs,
else `?k1=v1&k2=v2...` in stored order. -/
def renderPairsTail : List (String × String) → String
  | [] => ""
  | (k, v) :: rest => "&" ++ k ++ "=" ++ v ++ renderPairsTail rest

def renderQuerySpec : List (String × String) → String
  | [] => ""
  | (k, v) :: rest => "?" ++ k ++ "=" ++ v ++ renderPairsTail rest

/-- Applies a function to the accumulated bytes of a successful decode,
passing errors and exceptions through (used to relate the accumulator-style
code loop to the direct-recursion specification decoder). -/
def okMap (f : List Nat → List Nat) :
    Except PyExc (Res (List Nat) UErr) → Except PyExc (Res (List Nat) UErr)
  | .ok (.ok bs) => .ok (.ok (f bs))
  | .ok (.err e) => .ok (.err e)
  | .error e => .error e

/-! ## Language of a regex and capture soundness -/

/-- Denotational language of a regex AST.  Context-sensitive `wordB`
matches the empty string here: `Lang` records which strings a regex can
consume, which is all the capture lemmas need. -/
inductive Lang : RE → List Char → Prop where
  | eps : Lang .eps []
  | sym {cls : Char → Bool} {c : Char} : cls c = true → Lang (.sym cls) [c]
  | cat {a b : RE} {l₁ l₂ : List Char} :
      Lang a l₁ → Lang b l₂ → Lang (.cat a b) (l₁ ++ l₂)
  | altL {a b : RE} {l : List Char} : Lang a l → Lang (.alt a b) l
  | altR {a b : RE} {l : List Char} : Lang b l → Lang (.alt a b) l
  | optSome {a : RE} {l : List Char} : Lang a l → Lang (.opt a) l
  | optNone {a : RE} : Lang (.opt a) []
  | starNil {a : RE} : Lang (.star a) []
  | starCons {a : RE} {l₁ l₂ : List Char} :
      Lang a l₁ → Lang (.star a) l₂ → Lang (.star a) (l₁ ++ l₂)
  | group {g : GTag} {a : RE} {l : List Char} : Lang a l → Lang (.group g a) l
  | wordB : Lang .wordB []

/-- The regex each named group wraps in `URL_REGEX`. -/
def tagRE : GTag → RE
  | .domain => domainRE
  | .path => pathRE
  | .query => queryInnerRE
  | .fragment => fragRE

/-- Every named group in the regex wraps exactly its designated subregex. -/
def GroupsOk : RE → Prop
  | .cat a b => GroupsOk a ∧ GroupsOk b
  | .alt a b => GroupsOk a ∧ GroupsOk b
  | .opt a => GroupsOk a
  | .star a => GroupsOk a
  | .group g a => a = tagRE g ∧ GroupsOk a
  | _ => True

/-- Each populated capture holds a word of its group's language. -/
def GroupSound (caps : Caps) : Prop :=
  (∀ l, caps.domain = some l → Lang domainRE l) ∧
  (∀ l, caps.path = some l → Lang pathRE l) ∧
  (∀ l, caps.query = some l → Lang queryInnerRE l) ∧
  (∀ l, caps.fragment = some l → Lang fragRE l)

/-- All character classes appearing in a regex entail a character property. -/
def REChars (P : Char → Prop) : RE → Prop
  | .sym cls => ∀ c, cls c = true → P c
  | .cat a b => REChars P a ∧ REChars P b
  | .alt a b => REChars P a ∧ REChars P b
  | .opt a => REChars P a
  | .star a => REChars P a
  | .group _ a => REChars P a
  | _ => True

/-! ## Soundness of the matcher's captures -/

theorem groupSound_empty : GroupSound Caps.empty := by
  refine ⟨?_, ?_, ?_, ?_⟩ <;> intro l hl <;> simp [Caps.empty] at hl

theorem groupSound_set {caps : Caps} {g : GTag} {v : List Char}
    (h : GroupSound caps) (hv : Lang (tagRE g) v) : GroupSound (caps.set g v) := by
  obtain ⟨hd, hp, hq, hf⟩ := h
  cases g with
  | domain =>
    refine ⟨?_, hp, hq, hf⟩
    intro l hl
    simp only [Caps.set, Option.some.injEq] at hl
    exact hl ▸ hv
  | path =>
    refine ⟨hd, ?_, hq, hf⟩
    intro l hl
    simp only [Caps.set, Option.some.injEq] at hl
    exact hl ▸ hv
  | query =>
    refine ⟨hd, hp, ?_, hf⟩
    intro l hl
    simp only [Caps.set, Option.some.injEq] at hl
    exact hl ▸ hv
  | fragment =>
    refine ⟨hd, hp, hq, ?_⟩
    intro l hl
    simp only [Caps.set, Option.some.injEq] at hl
    exact hl ▸ hv

/-- Soundness of the backtracking matcher: a successful run consumed a
prefix of the input belonging to the regex's language, preserved capture
soundness, and fired its continuation on the remaining suffix. -/
theorem matchRE_sound (fuel : Nat) :
    ∀ (r : RE) (prev : Option Char) (rest : List Char) (caps : Caps) (k : Cont)
      (res : MatchRes), GroupsOk r → matchRE fuel r prev rest caps k = some res →
      ∃ (n : Nat) (prev' : Option Char) (caps' : Caps), n ≤ rest.length ∧
        Lang r (rest.take n) ∧ (GroupSound caps → GroupSound caps') ∧
        k prev' (rest.drop n) caps' = some res := by
  induction fuel with
  | zero =>
    intro r prev rest caps k res _ h
    simp [matchRE] at h
  | succ fuel ih =>
    intro r prev rest caps k res hok h
    cases r with
    | eps =>
      exact ⟨0, prev, caps, Nat.zero_le _, Lang.eps, fun hs => hs, h⟩
    | sym cls =>
      cases rest with
      | nil => simp [matchRE] at h
      | cons c rest' =>
        simp only [matchRE] at h
        by_cases hc : cls c = true
        · rw [if_pos hc] at h
          exact ⟨1, some c, caps, by simp, Lang.sym hc, fun hs => hs, h⟩
        · rw [if_neg hc] at h
          simp at h
    | cat a b =>
      obtain ⟨hoka, hokb⟩ := hok
      simp only [matchRE] at h
      obtain ⟨n₁, prev₁, caps₁, hn₁, hl₁, hp₁, hk₁⟩ := ih a prev rest caps _ res hoka h
      obtain ⟨n₂, prev₂, caps₂, hn₂, hl₂, hp₂, hk₂⟩ :=
        ih b prev₁ (rest.drop n₁) caps₁ k res hokb hk₁
      refine ⟨n₁ + n₂, prev₂, caps₂, ?_, ?_, fun hs => hp₂ (hp₁ hs), ?_⟩
      · have hld := List.length_drop n₁ rest
        omega
      · rw [List.take_add]
        exact Lang.cat hl₁ hl₂
      · have h3 : (rest.drop n₁).drop n₂ = rest.drop (n₁ + n₂) := by
          rw [List.drop_drop, Nat.add_comm]
        rw [h3] at hk₂
        exact hk₂
    | alt a b =>
      obtain ⟨hoka, hokb⟩ := hok
      simp only [matchRE] at h
      cases ha : matchRE fuel a prev rest caps k with
      | none =>
        rw [ha] at h
        obtain ⟨n, prev', caps', hn, hl, hp, hk⟩ := ih b prev rest caps k res hokb h
        exact ⟨n, prev', caps', hn, Lang.altR hl, hp, hk⟩
      | some val =>
        rw [ha] at h
        injection h with h'
        rw [h'] at ha
        obtain ⟨n, prev', caps', hn, hl, hp, hk⟩ := ih a prev rest caps k res hoka ha
        exact ⟨n, prev', caps', hn, Lang.altL hl, hp, hk⟩
    | opt a =>
      simp only [matchRE] at h
      cases ha : matchRE fuel a prev rest caps k with
      | none =>
        rw [ha] at h
        exact ⟨0, prev, caps, Nat.zero_le _, Lang.optNone, fun hs => hs, h⟩
      | some val =>
        rw [ha] at h
        injection h with h'
        rw [h'] at ha
        obtain ⟨n, prev', caps', hn, hl, hp, hk⟩ := ih a prev rest caps k res hok ha
        exact ⟨n, prev', caps', hn, Lang.optSome hl, hp, hk⟩
    | star a =>
      simp only [matchRE] at h
      cases ha : matchRE fuel a prev rest caps
          (fun pv rs cs => matchRE fuel (.star a) pv rs cs k) with
      | none =>
        rw [ha] at h
        exact ⟨0, prev, caps, Nat.zero_le _, Lang.starNil, fun hs => hs, h⟩
      | some val =>
        rw [ha] at h
        injection h with h'
        rw [h'] at ha
        obtain ⟨n₁, prev₁, caps₁, hn₁, hl₁, hp₁, hk₁⟩ := ih a prev rest caps _ res hok ha
        obtain ⟨n₂, prev₂, caps₂, hn₂, hl₂, hp₂, hk₂⟩ :=
          ih (.star a) prev₁ (rest.drop n₁) caps₁ k res hok hk₁
        refine ⟨n₁ + n₂, prev₂, caps₂, ?_, ?_, fun hs => hp₂ (hp₁ hs), ?_⟩
        · have hld := List.length_drop n₁ rest
          omega
        · rw [List.take_add]
          exact Lang.starCons hl₁ hl₂
        · have h3 : (rest.drop n₁).drop n₂ = rest.drop (n₁ + n₂) := by
            rw [List.drop_drop, Nat.add_comm]
          rw [h3] at hk₂
          exact hk₂
    | group g a =>
      obtain ⟨heq, hoka⟩ := hok
      simp only [matchRE] at h
      obtain ⟨n, prev', caps', hn, hl, hp, hk⟩ := ih a prev rest caps _ res hoka h
      simp only [List.length_drop] at hk
      rw [Nat.sub_sub_self hn] at hk
      refine ⟨n, prev', caps'.set g (rest.take n), hn, Lang.group hl, ?_, hk⟩
      intro hs
      exact groupSound_set (hp hs) (heq ▸ hl)
    | wordB =>
      simp only [matchRE] at h
      by_cases hb : atBoundary prev rest = true
      · rw [if_pos hb] at h
        exact ⟨0, prev, caps, Nat.zero_le _, Lang.wordB, fun hs => hs, h⟩
      · rw [if_neg hb] at h
        simp at h

theorem groupsOk_urlRegex : GroupsOk urlRegex := by
  simp only [urlRegex, schemeRE, GroupsOk, tagRE]
  repeat (first | trivial | constructor)

/-- Soundness of `reMatch`: a match of length `n` means the first `n`
characters form a word of `URL_REGEX`, and every populated capture holds a
word of its group's subregex. -/
theorem reMatch_sound {cs : List Char} {n : Nat} {caps : Caps}
    (h : reMatch cs = some (n, caps)) :
    n ≤ cs.length ∧ Lang urlRegex (cs.take n) ∧ GroupSound caps := by
  obtain ⟨m, prev', caps', hm, hl, hp, hk⟩ :=
    matchRE_sound (reFuel cs) urlRegex none cs Caps.empty _ (n, caps) groupsOk_urlRegex h
  simp only [List.length_drop] at hk
  rw [Nat.sub_sub_self hm] at hk
  injection hk with hk'
  obtain ⟨h1, h2⟩ := Prod.mk.injEq .. ▸ hk'
  subst h1
  subst h2
  exact ⟨hm, hl, hp groupSound_empty⟩

/-! ## Consequences of language membership -/

theorem chars_of_lang {P : Char → Prop} {r : RE} {l : List Char}
    (h : Lang r l) : REChars P r → ∀ c ∈ l, P c := by
  induction h with
  | eps => intro _ c hc; simp at hc
  | sym hcls =>
    intro hre c hc
    obtain rfl := List.mem_singleton.mp hc
    exact hre _ hcls
  | cat h₁ h₂ ih₁ ih₂ =>
    intro hre c hc
    obtain ⟨ha, hb⟩ := hre
    rcases List.mem_append.mp hc with h | h
    · exact ih₁ ha c h
    · exact ih₂ hb c h
  | altL h₁ ih =>
    intro hre c hc
    obtain ⟨ha, _⟩ := hre
    exact ih ha c hc
  | altR h₁ ih =>
    intro hre c hc
    obtain ⟨_, hb⟩ := hre
    exact ih hb c hc
  | optSome h₁ ih => exact fun hre c hc => ih hre c hc
  | optNone => intro _ c hc; simp at hc
  | starNil => intro _ c hc; simp at hc
  | starCons h₁ h₂ ih₁ ih₂ =>
    intro hre c hc
    rcases List.mem_append.mp hc with h | h
    · exact ih₁ hre c h
    · exact ih₂ hre c h
  | group h₁ ih => exact fun hre c hc => ih hre c hc
  | wordB => intro _ c hc; simp at hc

theorem lang_chr {c : Char} {l : List Char} (h : Lang (RE.chr c) l) : l = [c] := by
  have h' : Lang (.sym (fun x => x == c)) l := h
  cases h' with
  | sym hcls =>
    rename_i c₀
    have : c₀ = c := by simpa using hcls
    rw [this]

theorem lang_urlChar_ne_nil {l : List Char} (h : Lang urlCharRE l) : l ≠ [] := by
  cases h with
  | altL h₁ => cases h₁ with | sym _ => simp
  | altR h₁ =>
    cases h₁ with
    | cat ha hb =>
      rw [lang_chr ha]
      simp

theorem lang_plus_ne_nil {l : List Char} (h : Lang (RE.plus urlCharRE) l) :
    l ≠ [] := by
  have h' : Lang (.cat urlCharRE (.star urlCharRE)) l := h
  cases h' with
  | cat h₁ h₂ =>
    have := lang_urlChar_ne_nil h₁
    intro hnil
    rcases List.append_eq_nil.mp hnil with ⟨h3, _⟩
    exact this h3

/-- All the character facts needed at once: a `URL_CHARS` word avoids the
structural characters of the grammar. -/
def UrlDataChar (c : Char) : Prop :=
  c ≠ '/' ∧ c ≠ ':' ∧ c ≠ '&' ∧ c ≠ '=' ∧ c ≠ '#' ∧ c ≠ '?'

theorem isClsChar_data {c : Char} (h : isClsChar c = true) : UrlDataChar c := by
  refine ⟨?_, ?_, ?_, ?_, ?_, ?_⟩ <;> (rintro rfl; exact absurd h (by decide))

theorem isHexChar_data {c : Char} (h : isHexChar c = true) : UrlDataChar c := by
  refine ⟨?_, ?_, ?_, ?_, ?_, ?_⟩ <;> (rintro rfl; exact absurd h (by decide))

theorem pct_data {c : Char} (h : (c == '%') = true) : UrlDataChar c := by
  obtain rfl := beq_iff_eq.mp h
  refine ⟨?_, ?_, ?_, ?_, ?_, ?_⟩ <;> decide

theorem reChars_urlChar : REChars UrlDataChar urlCharRE :=
  ⟨fun _ h => isClsChar_data h,
    fun _ h => pct_data h,
    fun _ h => isHexChar_data h, fun _ h => isHexChar_data h⟩

theorem reChars_plus_urlChar : REChars UrlDataChar (RE.plus urlCharRE) :=
  ⟨reChars_urlChar, reChars_urlChar⟩

/-- Every character of a domain capture avoids the structural characters. -/
theorem domain_chars {l : List Char} (h : Lang domainRE l) :
    ∀ c ∈ l, UrlDataChar c :=
  chars_of_lang h reChars_plus_urlChar

/-- A path capture starts with a slash. -/
theorem path_shape {l : List Char} (h : Lang pathRE l) :
    ∃ t, l = '/' :: t := by
  have h' : Lang (.cat (.cat (.chr '/') (.star (.alt urlCharRE (.chr ':'))))
      (.star (.cat (.chr '/') (.star (.alt urlCharRE (.chr ':')))))) l := h
  cases h' with
  | cat h₁ h₂ =>
    rename_i l₁ l₂
    cases h₁ with
    | cat ha hb =>
      rename_i l₃ l₄
      rw [lang_chr ha]
      exact ⟨l₄ ++ l₂, by simp⟩

/-- A fragment capture is the hash sign followed by a nonempty word. -/
theorem frag_shape {l : List Char} (h : Lang fragRE l) :
    ∃ t, l = '#' :: t := by
  have h' : Lang (.cat (.chr '#') (RE.plus urlCharRE)) l := h
  cases h' with
  | cat h₁ h₂ =>
    rename_i l₁ l₂
    rw [lang_chr h₁]
    exact ⟨l₂, rfl⟩

/-! ## Splitting lemmas for query strings -/

theorem splitChar_no_sep (sep : Char) :
    ∀ (l : List Char), (∀ c ∈ l, c ≠ sep) → splitChar sep l = [l] := by
  intro l
  induction l with
  | nil => intro _; rfl
  | cons c cs ih =>
    intro hfree
    have hc : ¬ (c = sep) := hfree c (by simp)
    rw [splitChar, if_neg hc, ih (fun x hx => hfree x (by simp [hx]))]

theorem splitChar_append_sep (sep : Char) :
    ∀ (l₁ l₂ : List Char), (∀ c ∈ l₁, c ≠ sep) →
      splitChar sep (l₁ ++ sep :: l₂) = l₁ :: splitChar sep l₂ := by
  intro l₁
  induction l₁ with
  | nil =>
    intro l₂ _
    simp [splitChar]
  | cons c cs ih =>
    intro l₂ hfree
    have hc : ¬ (c = sep) := hfree c (by simp)
    rw [List.cons_append, splitChar, if_neg hc,
      ih l₂ (fun x hx => hfree x (by simp [hx]))]

/-- Shape of a `QUERY_KV` word: key, equals sign, value, with both sides
free of the separators `=` and `&`. -/
theorem kv_shape {l : List Char} (h : Lang kvRE l) :
    (∀ c ∈ l, c ≠ '&') ∧ ∃ k v, splitChar '=' l = [k, v] := by
  have h' : Lang (.cat (RE.plus urlCharRE) (.cat (.chr '=') (RE.plus urlCharRE))) l := h
  cases h' with
  | cat h₁ h₂ =>
    rename_i k rest
    cases h₂ with
    | cat he h₃ =>
      rename_i leq v
      rw [lang_chr he] at *
      have hk := chars_of_lang h₁ reChars_plus_urlChar
      have hv := chars_of_lang h₃ reChars_plus_urlChar
      constructor
      · intro c hc
        rcases List.mem_append.mp hc with h4 | h4
        · exact (hk c h4).2.2.1
        · rcases List.mem_cons.mp h4 with rfl | h5
          · decide
          · exact (hv c h5).2.2.1
      · refine ⟨k, v, ?_⟩
        have hsplit : splitChar '=' (k ++ '=' :: v) = k :: splitChar '=' v :=
          splitChar_append_sep '=' k v (fun c hc => (hk c hc).2.2.2.1)
        simp only [List.singleton_append]
        rw [hsplit, splitChar_no_sep '=' v (fun c hc => (hv c hc).2.2.2.1)]

/-- Processing a single ampersand-free, well-split pair succeeds. -/
theorem parts_single {kv : List Char} (hfree : ∀ c ∈ kv, c ≠ '&')
    (hsplit : ∃ k v, splitChar '=' kv = [k, v]) :
    ∃ pairs, parseQueryParts (splitChar '&' kv) = .ok pairs := by
  obtain ⟨k, v, hs⟩ := hsplit
  rw [splitChar_no_sep '&' kv hfree]
  refine ⟨[(String.mk k, String.mk v)], ?_⟩
  rw [parseQueryParts, hs]
  rfl

/-- Processing a well-formed pair followed by a word of `(&KV)*` succeeds. -/
theorem star_ampkv_parts (n : Nat) :
    ∀ (l : List Char), l.length ≤ n →
      Lang (.star (.cat (.chr '&') kvRE)) l →
      ∀ kv, (∀ c ∈ kv, c ≠ '&') → (∃ k v, splitChar '=' kv = [k, v]) →
      ∃ pairs, parseQueryParts (splitChar '&' (kv ++ l)) = .ok pairs := by
  induction n with
  | zero =>
    intro l hlen h kv hfree hsplit
    have hnil : l = [] := List.length_eq_zero.mp (Nat.le_zero.mp hlen)
    subst hnil
    rw [List.append_nil]
    exact parts_single hfree hsplit
  | succ n ih =>
    intro l hlen h kv hfree hsplit
    cases h with
    | starNil =>
      rw [List.append_nil]
      exact parts_single hfree hsplit
    | starCons h₁ h₂ =>
      rename_i l₁ l₂
      cases h₁ with
      | cat ha hb =>
        rename_i la lb
        rw [lang_chr ha] at *
        obtain ⟨hbfree, hbsplit⟩ := kv_shape hb
        obtain ⟨k, v, hs⟩ := hsplit
        have hlen₂ : l₂.length ≤ n := by
          simp only [List.length_append, List.length_singleton] at hlen
          omega
        simp only [List.append_assoc, List.singleton_append, List.cons_append,
          List.nil_append]
        rw [splitChar_append_sep '&' kv (lb ++ l₂) hfree]
        obtain ⟨pairs, hp⟩ := ih l₂ hlen₂ h₂ lb hbfree hbsplit
        refine ⟨(String.mk k, String.mk v) :: pairs, ?_⟩
        rw [parseQueryParts, hs, hp]

/-- A word of the query group's language parses into pairs without the
tuple-unpacking crash. -/
theorem query_parts_ok {q : List Char} (h : Lang queryInnerRE q) :
    ∃ pairs, parse_query_str (some q) = .ok pairs := by
  have h' : Lang (.cat kvRE (.star (.cat (.chr '&') kvRE))) q := h
  cases h' with
  | cat h₁ h₂ =>
    rename_i kv tail
    obtain ⟨hfree, hsplit⟩ := kv_shape h₁
    obtain ⟨pairs, hp⟩ := star_ampkv_parts tail.length tail (Nat.le_refl _) h₂ kv hfree hsplit
    exact ⟨pairs, hp⟩

/-! ## From-string parse facts -/

/-- Parsing never raises: the tuple-unpacking crash of `_parse_query_str`
is unreachable through `from_str`. -/
theorem from_str_no_crash (s : String) : ∃ r, from_str s = .ok r := by
  unfold from_str
  cases hm : reMatch (rstripSlash s.toList) with
  | none => exact ⟨_, rfl⟩
  | some m =>
    obtain ⟨stop, caps⟩ := m
    simp only
    by_cases hspan : (0, stop) ≠ (0, (rstripSlash s.toList).length)
    · rw [if_pos hspan]
      exact ⟨_, rfl⟩
    · rw [if_neg hspan]
      cases hd : caps.domain with
      | none => exact ⟨_, rfl⟩
      | some d =>
        cases hq : caps.query with
        | none => exact ⟨_, rfl⟩
        | some q =>
          obtain ⟨-, -, hsound⟩ := reMatch_sound hm
          have hlang : Lang queryInnerRE q := hsound.2.2.1 q hq
          obtain ⟨pairs, hp⟩ := query_parts_ok hlang
          rw [hp]
          exact ⟨_, rfl⟩

/-- The errors `from_str` can return are exactly its three parse errors. -/
theorem from_str_err_parse {s : String} {e : UErr}
    (h : from_str s = .ok (.err e)) :
    e = .parse noMatchMsg ∨ e = .parse incompleteMsg ∨ e = .parse noDomainMsg := by
  unfold from_str at h
  cases hm : reMatch (rstripSlash s.toList) with
  | none =>
    rw [hm] at h
    simp only [Except.ok.injEq, Res.err.injEq] at h
    exact Or.inl h.symm
  | some m =>
    obtain ⟨stop, caps⟩ := m
    rw [hm] at h
    simp only at h
    by_cases hspan : (0, stop) ≠ (0, (rstripSlash s.toList).length)
    · rw [if_pos hspan] at h
      simp only [Except.ok.injEq, Res.err.injEq] at h
      exact Or.inr (Or.inl h.symm)
    · rw [if_neg hspan] at h
      cases hd : caps.domain with
      | none =>
        rw [hd] at h
        simp only [Except.ok.injEq, Res.err.injEq] at h
        exact Or.inr (Or.inr h.symm)
      | some d =>
        rw [hd] at h
        cases hq : parse_query_str caps.query with
        | error e' => rw [hq] at h; simp at h
        | ok pairs => rw [hq] at h; simp at h

/-- Inversion of a successful `from_str`: the regex matched the whole
trimmed input and the result's fields come from sound captures. -/
theorem from_str_ok_inv {s : String} {u : HttpUrl}
    (h : from_str s = .ok (.ok u)) :
    ∃ (caps : Caps) (d : List Char),
      reMatch (rstripSlash s.toList) =
        some ((rstripSlash s.toList).length, caps) ∧
      caps.domain = some d ∧ u.domain = String.mk d ∧
      u.path = String.mk (caps.path.getD []) ∧
      u.fragment = caps.fragment.map String.mk ∧ GroupSound caps := by
  unfold from_str at h
  cases hm : reMatch (rstripSlash s.toList) with
  | none => rw [hm] at h; simp at h
  | some m =>
    obtain ⟨stop, caps⟩ := m
    rw [hm] at h
    simp only at h
    by_cases hspan : (0, stop) ≠ (0, (rstripSlash s.toList).length)
    · rw [if_pos hspan] at h; simp at h
    · rw [if_neg hspan] at h
      have hstop : stop = (rstripSlash s.toList).length :=
        (Prod.mk.injEq .. ▸ not_not.mp hspan).2
      subst hstop
      cases hd : caps.domain with
      | none => rw [hd] at h; simp at h
      | some d =>
        rw [hd] at h
        cases hq : parse_query_str caps.query with
        | error e' => rw [hq] at h; simp at h
        | ok pairs =>
          rw [hq] at h
          simp only [Except.ok.injEq, Res.ok.injEq] at h
          obtain ⟨-, -, hsound⟩ := reMatch_sound hm
          exact ⟨caps, d, rfl, hd, by rw [← h], by rw [← h], by rw [← h], hsound⟩

/-- Any word of the full URL regex starts with the literal `http`. -/
theorem lang_urlRegex_http {l : List Char}
    (h : Lang urlRegex l) : ∃ t, l = 'h' :: 't' :: 't' :: 'p' :: t := by
  have h' : Lang (.cat .wordB (.cat schemeRE (.cat (.group .domain domainRE)
      (.cat (.opt (.group .path pathRE))
        (.cat (.opt (.cat (.chr '?') (.group .query queryInnerRE)))
          (.cat (.opt (.group .fragment fragRE)) .wordB)))))) l := h
  cases h' with
  | cat hb hrest =>
    cases hb
    cases hrest with
    | cat hs hrest₂ =>
      rename_i ls l₂
      have hs' : Lang (.cat (.chr 'h') (.cat (.chr 't') (.cat (.chr 't')
          (.cat (.chr 'p') (.cat (.opt (.chr 's')) (.cat (.chr ':')
            (.cat (.chr '/') (.chr '/')))))))) ls := hs
      cases hs' with
      | cat h1 hr1 =>
        cases hr1 with
        | cat h2 hr2 =>
          cases hr2 with
          | cat h3 hr3 =>
            cases hr3 with
            | cat h4 hr4 =>
              rename_i l₄ l₅
              rw [lang_chr h1, lang_chr h2, lang_chr h3, lang_chr h4]
              exact ⟨l₅ ++ l₂, by simp⟩

/-- Trailing-slash stripping leaves a prefix of the original list. -/
theorem rstripSlash_self_append (l : List Char) : ∃ t, l = rstripSlash l ++ t := by
  refine ⟨(l.reverse.takeWhile (fun c => c = '/')).reverse, ?_⟩
  conv_lhs => rw [← List.reverse_reverse l,
    ← List.takeWhile_append_dropWhile (p := fun c => decide (c = '/')) (l := l.reverse)]
  rw [List.reverse_append]
  rfl

/-- A successfully parsed string starts with `http` (after unstripping the
trailing slashes, which does not affect the first characters). -/
theorem from_str_ok_startswith {s : String} {u : HttpUrl}
    (h : from_str s = .ok (.ok u)) : pyStartswith s "http" = true := by
  obtain ⟨caps, d, hm, -⟩ := from_str_ok_inv h
  obtain ⟨-, hl, -⟩ := reMatch_sound hm
  rw [List.take_length] at hl
  obtain ⟨t, ht⟩ := lang_urlRegex_http hl
  obtain ⟨t₂, ht₂⟩ := rstripSlash_self_append s.toList
  unfold pyStartswith
  rw [ List.isPrefixOf_iff_prefix]
  rw [ht₂, ht]
  exact ⟨t ++ t₂, by simp⟩

/-! ## Dispatch facts -/

theorem lookup_cases {d : String} {f : HttpUrl → Except PyExc (Res HttpUrl UErr)}
    (h : special_cases_lookup d = some f) :
    f = youtube_strip ∨ f = amazon_strip ∨ f = ebay_strip ∨ f = no_queryable := by
  unfold special_cases_lookup at h
  split_ifs at h
  · exact Or.inl (Option.some.inj h).symm
  · exact Or.inr (Or.inl (Option.some.inj h).symm)
  · exact Or.inr (Or.inr (Or.inl (Option.some.inj h).symm))
  · exact Or.inr (Or.inr (Or.inr (Option.some.inj h).symm))

theorem youtube_strip_no_exc (u : HttpUrl) (e : PyExc) :
    youtube_strip u ≠ .error e := by
  unfold youtube_strip
  split_ifs with hp
  · cases dictGet u.query "v" <;> simp
  · simp

theorem youtube_strip_err {u : HttpUrl} {e : UErr}
    (h : youtube_strip u = .ok (.err e)) :
    e = .url "Address was a watch link, but could not find video id" := by
  unfold youtube_strip at h
  split_ifs at h with hp
  · cases hdg : dictGet u.query "v" with
    | none =>
      rw [hdg] at h
      simp only [Except.ok.injEq, Res.err.injEq] at h
      exact h.symm
    | some vid => rw [hdg] at h; simp at h
  · simp [no_query] at h

theorem amazon_strip_exc {u : HttpUrl} {e : PyExc}
    (h : amazon_strip u = .error e) : e = .notInList "dp" := by
  unfold amazon_strip at h
  cases hidx : ((splitChar '/' u.path.toList).map String.mk).indexOf? "dp" with
  | none =>
    rw [hidx] at h
    simp only [Except.error.injEq] at h
    exact h.symm
  | some idx =>
    rw [hidx] at h
    simp only at h
    cases htg : tryGetItem ((splitChar '/' u.path.toList).map String.mk) (idx + 1) with
    | none => rw [htg] at h; simp at h
    | some pid => rw [htg] at h; simp at h

theorem amazon_strip_no_err (u : HttpUrl) (e : UErr) :
    amazon_strip u ≠ .ok (.err e) := by
  unfold amazon_strip
  cases hidx : ((splitChar '/' u.path.toList).map String.mk).indexOf? "dp" with
  | none => simp
  | some idx =>
    simp only
    cases htg : tryGetItem ((splitChar '/' u.path.toList).map String.mk) (idx + 1) with
    | none => simp
    | some pid => simp

theorem ebay_strip_exc {u : HttpUrl} {e : PyExc}
    (h : ebay_strip u = .error e) : e = .notInList "itm" := by
  unfold ebay_strip at h
  cases hidx : ((splitChar '/' u.path.toList).map String.mk).indexOf? "itm" with
  | none =>
    rw [hidx] at h
    simp only [Except.error.injEq] at h
    exact h.symm
  | some idx =>
    rw [hidx] at h
    simp only at h
    cases hfind : (((splitChar '/' u.path.toList).map String.mk).drop idx).find?
        allDigits with
    | none => rw [hfind] at h; simp at h
    | some nid => rw [hfind] at h; simp at h

theorem ebay_strip_err {u : HttpUrl} {e : UErr}
    (h : ebay_strip u = .ok (.err e)) :
    e = .url "Found item identifier, but could not find item id" := by
  unfold ebay_strip at h
  cases hidx : ((splitChar '/' u.path.toList).map String.mk).indexOf? "itm" with
  | none => rw [hidx] at h; simp at h
  | some idx =>
    rw [hidx] at h
    simp only at h
    cases hfind : (((splitChar '/' u.path.toList).map String.mk).drop idx).find?
        allDigits with
    | some nid => rw [hfind] at h; simp at h
    | none =>
      rw [hfind] at h
      simp only [Except.ok.injEq, Res.err.injEq] at h
      exact h.symm

theorem no_queryable_shape (u : HttpUrl) :
    no_queryable u = .ok (.ok (no_query u)) := rfl

/-- The dispatch stage never raises the tuple-unpacking exception. -/
theorem strip_dispatch_no_unpack (u : HttpUrl) :
    strip_dispatch u ≠ .error PyExc.unpackMismatch := by
  unfold strip_dispatch
  cases hlk : special_cases_lookup u.domain with
  | none => simp [strip_last_query]
  | some f =>
    rcases lookup_cases hlk with rfl | rfl | rfl | rfl
    · exact youtube_strip_no_exc u _
    · intro h
      have := amazon_strip_exc h
      simp at this
    · intro h
      have := ebay_strip_exc h
      simp at this
    · simp [no_queryable]

/-- The dispatch stage never returns the scheme-check error value. -/
theorem strip_dispatch_not_scheme_err (u : HttpUrl) :
    strip_dispatch u ≠ .ok (.err notHttpErr) := by
  unfold strip_dispatch
  cases hlk : special_cases_lookup u.domain with
  | none => simp [strip_last_query]
  | some f =>
    rcases lookup_cases hlk with rfl | rfl | rfl | rfl
    · intro h
      have := youtube_strip_err h
      simp [notHttpErr] at this
    · exact amazon_strip_no_err u _
    · intro h
      have := ebay_strip_err h
      simp [notHttpErr] at this
    · simp [no_queryable]

theorem take_one_firstPair (q : List (String × String)) :
    q.take 1 = firstPairOnly q := by
  cases q <;> rfl

/-! ## Claims -/

/-- C1 (code bug): `strip_url` does propagate uncaught exceptions.  On an
amazon or ebay URL whose path lacks the `dp`/`itm` segment, the rewrite
rule's `list.index` call raises `ValueError` ("... is not in list"), which
nothing catches — contradicting both the spec's propagation policy and the
dead `!= -1` guard's evident intent. -/
theorem c1_strip_url_raises_valueerror :
    strip_url "https://www.amazon.com/gp/cart" = .error (.notInList "dp") ∧
    strip_url "https://www.ebay.com/usr/someone" = .error (.notInList "itm") :=
  ⟨rfl, rfl⟩

/-- C2 (counterexample): `"httpx://a.com"` lacks both the `http://` and the
`https://` prefix, yet `strip_url` does not return the not-http-scheme
error — the `startswith("http")` check passes and the parser rejects the
string with the no-match error instead. -/
theorem c2_counterexample :
    pyStartswith "httpx://a.com" "http://" = false ∧
    pyStartswith "httpx://a.com" "https://" = false ∧
    strip_url "httpx://a.com" = .ok (.err (.parse noMatchMsg)) ∧
    UErr.parse noMatchMsg ≠ notHttpErr := by
  refine ⟨rfl, rfl, rfl, by decide⟩

/-- C2 (amended): `strip_url` returns the not-http-scheme error if and only
if the input does not start with the four characters `http`; the check runs
before the parser. -/
theorem c2_scheme_error_iff_not_http_start (s : String) :
    strip_url s = .ok (.err notHttpErr) ↔ pyStartswith s "http" = false := by
  constructor
  · intro h
    cases hb : pyStartswith s "http" with
    | false => rfl
    | true =>
      exfalso
      unfold strip_url at h
      rw [if_neg (by simp [hb])] at h
      cases hr : from_str s with
      | error e => rw [hr] at h; simp at h
      | ok r =>
        rw [hr] at h
        cases r with
        | err e =>
          simp only [Except.ok.injEq, Res.err.injEq] at h
          rcases from_str_err_parse hr with rfl | rfl | rfl <;>
            simp [notHttpErr] at h
        | ok u =>
          simp only at h
          exact strip_dispatch_not_scheme_err u h
  · intro h
    unfold strip_url
    rw [if_pos (by simp [h])]

/-- C3 (counterexample): on `"https://google.com/search?v=among"` the
generic fallback keeps the first query pair, so the result serialises to
`"https://google.com/search?v=among"`, not `"https://google.com/search"`
as the claim states. -/
theorem c3_counterexample :
    strip_url "https://google.com/search?v=among" =
      .ok (.ok ⟨"google.com", "/search", [("v", "among")], none⟩) ∧
    into_str_default ⟨"google.com", "/search", [("v", "among")], none⟩ =
      "https://google.com/search?v=among" ∧
    "https://google.com/search?v=among" ≠ "https://google.com/search" :=
  ⟨rfl, rfl, by decide⟩

/-- C3 (amended): `strip_url "https://google.com/search?v=among"` returns
`Ok`, and the result serialises via `into_str` to exactly
`"https://google.com/search?v=among"` — the generic fallback retains the
first query pair rather than dropping the query. -/
theorem c3_google_fallback_keeps_first_pair :
    strip_url "https://google.com/search?v=among" =
      .ok (.ok ⟨"google.com", "/search", [("v", "among")], none⟩) ∧
    into_str_default ⟨"google.com", "/search", [("v", "among")], none⟩ =
      "https://google.com/search?v=among" :=
  ⟨rfl, rfl⟩

/-- C4: for every parsed URL whose domain has no registered rewrite rule,
`strip_url` returns `Ok` of a value with the same domain, path and fragment
and with the query truncated to its first pair; the dispatch stage is
exactly `strip_last_query` applied to the (unmutated, freshly copied)
parsed value. -/
theorem c4_generic_fallback_first_pair (s : String) (u : HttpUrl)
    (hp : from_str s = .ok (.ok u))
    (hreg : special_cases_lookup u.domain = none) :
    strip_url s = .ok (.ok ⟨u.domain, u.path, firstPairOnly u.query, u.fragment⟩) ∧
    strip_dispatch u = .ok (strip_last_query u) := by
  have hsw := from_str_ok_startswith hp
  have hdisp : strip_dispatch u = .ok (strip_last_query u) := by
    unfold strip_dispatch
    rw [hreg]
  refine ⟨?_, hdisp⟩
  unfold strip_url
  rw [if_neg (by simp [hsw]), hp]
  simp only
  rw [hdisp]
  unfold strip_last_query
  rw [take_one_firstPair]

theorem c4_generic_fallback_first_pair_witness :
    from_str "https://google.com/a?x=1&y=2" =
      .ok (.ok ⟨"google.com", "/a", [("x", "1"), ("y", "2")], none⟩) ∧
    special_cases_lookup "google.com" = none ∧
    strip_url "https://google.com/a?x=1&y=2" =
      .ok (.ok ⟨"google.com", "/a", [("x", "1")], none⟩) :=
  ⟨rfl, rfl,
    (c4_generic_fallback_first_pair "https://google.com/a?x=1&y=2"
      ⟨"google.com", "/a", [("x", "1"), ("y", "2")], none⟩ rfl rfl).1⟩

/-- C5: whenever the regex matches only a proper prefix of the
slash-trimmed input, `from_str` rejects with the incomplete-match error. -/
theorem c5_partial_match_rejected (s : String) (n : Nat) (caps : Caps)
    (hm : reMatch (rstripSlash s.toList) = some (n, caps))
    (hlt : n < (rstripSlash s.toList).length) :
    from_str s = .ok (.err (.parse incompleteMsg)) := by
  unfold from_str
  rw [hm]
  simp only
  rw [if_pos]
  intro heq
  have h2 := (Prod.mk.injEq .. ▸ heq).2
  omega

theorem c5_partial_match_rejected_witness :
    reMatch (rstripSlash "https://a.com/p q".toList) =
      some (15, ⟨some ['a', '.', 'c', 'o', 'm'], some ['/', 'p'], none, none⟩) ∧
    15 < (rstripSlash "https://a.com/p q".toList).length ∧
    from_str "https://a.com/p q" = .ok (.err (.parse incompleteMsg)) :=
  ⟨rfl, by decide,
    c5_partial_match_rejected "https://a.com/p q" 15
      ⟨some ['a', '.', 'c', 'o', 'm'], some ['/', 'p'], none, none⟩ rfl (by decide)⟩

/-- C10: the malformed-query crash in `_parse_query_str` (the two-element
tuple unpacking of `split("=")`) is unreachable from the public parsing
interface: `from_str` always returns (it never raises), and `strip_url`
never raises that exception either. -/
theorem c10_unpack_crash_unreachable (s : String) :
    (∃ r, from_str s = .ok r) ∧ strip_url s ≠ .error PyExc.unpackMismatch := by
  refine ⟨from_str_no_crash s, ?_⟩
  unfold strip_url
  by_cases hsw : pyStartswith s "http" = true
  · rw [if_neg (by simp [hsw])]
    obtain ⟨r, hr⟩ := from_str_no_crash s
    rw [hr]
    cases r with
    | err e => simp
    | ok u =>
      simp only
      exact strip_dispatch_no_unpack u
  · rw [if_pos (by simp [hsw])]
    simp

/-- C9: every `HttpUrl` produced by `from_str` satisfies the data-model
invariant: nonempty domain carrying no scheme prefix and no trailing
slash; path empty or beginning with `/`; fragment either absent or a
nonempty string that includes its leading `#`. -/
theorem c9_from_str_invariants (s : String) (u : HttpUrl)
    (h : from_str s = .ok (.ok u)) :
    u.domain ≠ "" ∧
    pyStartswith u.domain "http://" = false ∧
    pyStartswith u.domain "https://" = false ∧
    pyEndswith u.domain "/" = false ∧
    (u.path = "" ∨ pyStartswith u.path "/" = true) ∧
    (u.fragment = none ∨
      ∃ f, u.fragment = some f ∧ pyStartswith f "#" = true ∧ f ≠ "") := by
  obtain ⟨caps, d, hm, hd, hud, hup, huf, hsound⟩ := from_str_ok_inv h
  have hld : Lang domainRE d := hsound.1 d hd
  have hchars := domain_chars hld
  have hdniln : d ≠ [] := by
    have hld' : Lang (RE.plus urlCharRE) d := hld
    exact lang_plus_ne_nil hld'
  refine ⟨?_, ?_, ?_, ?_, ?_, ?_⟩
  · intro heq
    rw [hud] at heq
    exact hdniln (by simpa using congrArg String.data heq)
  · rw [Bool.eq_false_iff]
    intro hpre
    rw [hud] at hpre
    unfold pyStartswith at hpre
    rw [ List.isPrefixOf_iff_prefix] at hpre
    have hmem : ':' ∈ d := hpre.subset (by decide)
    exact (hchars ':' hmem).2.1 rfl
  · rw [Bool.eq_false_iff]
    intro hpre
    rw [hud] at hpre
    unfold pyStartswith at hpre
    rw [ List.isPrefixOf_iff_prefix] at hpre
    have hmem : ':' ∈ d := hpre.subset (by decide)
    exact (hchars ':' hmem).2.1 rfl
  · rw [Bool.eq_false_iff]
    intro hsuf
    rw [hud] at hsuf
    unfold pyEndswith at hsuf
    rw [List.isSuffixOf_iff_suffix] at hsuf
    have hmem : '/' ∈ d := hsuf.subset (by decide)
    exact (hchars '/' hmem).1 rfl
  · cases hp : caps.path with
    | none =>
      left
      rw [hup, hp]
      rfl
    | some p =>
      right
      obtain ⟨t, rfl⟩ := path_shape (hsound.2.1 p hp)
      rw [hup, hp]
      simp [pyStartswith, List.isPrefixOf]
  · cases hf : caps.fragment with
    | none =>
      left
      rw [huf, hf]
      rfl
    | some f =>
      right
      obtain ⟨t, rfl⟩ := frag_shape (hsound.2.2.2 _ hf)
      refine ⟨String.mk ('#' :: t), by rw [huf, hf]; rfl, ?_, ?_⟩
      · simp [pyStartswith, List.isPrefixOf]
      · intro heq
        simpa using congrArg String.data heq

theorem joinAmp_cons_tail :
    ∀ (ps : List (String × String)) (x : String),
      joinAmp (x :: ps.map (fun p => p.1 ++ "=" ++ p.2)) =
        x ++ renderPairsTail ps := by
  intro ps
  induction ps with
  | nil =>
    intro x
    simp [joinAmp, renderPairsTail]
  | cons p rest ih =>
    intro x
    obtain ⟨k, v⟩ := p
    simp only [List.map_cons]
    rw [joinAmp, ih (k ++ "=" ++ v), renderPairsTail]
    simp [String.append_assoc]

/-- C7: `into_str` renders `{protocol}://{domain}{path}{query}{fragment}`
with the query empty for no pairs and `?k1=v1&k2=v2...` in stored order
otherwise, the fragment emitted as stored (with its leading `#`) or
omitted, and the protocol defaulting to `https` regardless of the input's
original scheme — so an `http://` URL round-trips to `https://`. -/
theorem c7_into_str_rendering :
    (∀ u : HttpUrl, into_str_default u =
      "https://" ++ u.domain ++ u.path ++ renderQuerySpec u.query ++
        u.fragment.getD "") ∧
    (∀ u : HttpUrl, pyStartswith (into_str_default u) "https://" = true) ∧
    from_str "http://example.com/a" = .ok (.ok ⟨"example.com", "/a", [], none⟩) ∧
    into_str_default ⟨"example.com", "/a", [], none⟩ = "https://example.com/a" := by
  have hrender : ∀ u : HttpUrl, into_str_default u =
      "https://" ++ u.domain ++ u.path ++ renderQuerySpec u.query ++
        u.fragment.getD "" := by
    intro u
    unfold into_str_default into_str
    have hlit : ("https" ++ "://" : String) = "https://" := rfl
    cases hq : u.query with
    | nil =>
      simp only [List.isEmpty_nil, if_pos]
      rw [renderQuerySpec, ← hlit]
    | cons p rest =>
      obtain ⟨k, v⟩ := p
      simp only [List.isEmpty_cons, if_neg]
      rw [renderQuerySpec, ← hlit]
      simp only [List.map_cons]
      rw [joinAmp_cons_tail rest (k ++ "=" ++ v)]
      simp [String.append_assoc]
  refine ⟨hrender, ?_, rfl, rfl⟩
  intro u
  rw [hrender u]
  unfold pyStartswith
  rw [ List.isPrefixOf_iff_prefix]
  refine ⟨(u.domain ++ u.path ++ renderQuerySpec u.query ++
    u.fragment.getD "").toList, ?_⟩
  simp [String.toList, String.data_append]

/-- Unfolding of the specification decoder on a non-escape character. -/
theorem specExpandBytes_cons_not_pct {c : Char} (hc : ¬ c = '%')
    (rest : List Char) :
    specExpandBytes (c :: rest) =
      match specExpandBytes rest with
      | .error e => .error e
      | .ok (.err e) => .ok (.err e)
      | .ok (.ok bs) => .ok (.ok (utf8Encode c ++ bs)) := by
  conv_lhs => rw [specExpandBytes.eq_def]
  simp only [if_neg hc]

/-- The accumulator-style decode loop of the code equals the
direct-recursion specification decoder, modulo prepending the accumulator
to a successful result. -/
theorem expandBytes_spec (m : Nat) :
    ∀ (l : List Char), l.length ≤ m → ∀ (acc : List Nat),
      expandBytes l 0 acc = okMap (acc ++ ·) (specExpandBytes l) := by
  induction m with
  | zero =>
    intro l hlen acc
    have hnil : l = [] := List.length_eq_zero.mp (Nat.le_zero.mp hlen)
    subst hnil
    simp [expandBytes, specExpandBytes, okMap]
  | succ m ih =>
    intro l hlen acc
    cases l with
    | nil => simp [expandBytes, specExpandBytes, okMap]
    | cons c rest =>
      by_cases hc : c = '%'
      · subst hc
        cases rest with
        | nil => simp [expandBytes, specExpandBytes, okMap]
        | cons a rest₂ =>
          cases rest₂ with
          | nil => simp [expandBytes, specExpandBytes, List.take, okMap]
          | cons b rest₃ =>
            rw [expandBytes, if_pos rfl, specExpandBytes, if_pos rfl]
            simp only [List.take_succ_cons, List.take_zero]
            cases hx : intHex2 a b with
            | none => simp [okMap]
            | some v =>
              simp only
              by_cases hv : v < 0
              · rw [if_pos hv, if_pos hv]
                simp [okMap]
              · rw [if_neg hv, if_neg hv]
                have hstep : expandBytes (a :: b :: rest₃) 2 (acc ++ [v.toNat]) =
                    expandBytes rest₃ 0 (acc ++ [v.toNat]) := by
                  rw [expandBytes, expandBytes]
                rw [hstep]
                have hlen₃ : rest₃.length ≤ m := by
                  simp only [List.length_cons] at hlen
                  omega
                rw [ih rest₃ hlen₃ (acc ++ [v.toNat])]
                cases hs : specExpandBytes rest₃ with
                | error e => simp [okMap]
                | ok r =>
                  cases r with
                  | err e => simp [okMap]
                  | ok bs => simp [okMap]
      · rw [expandBytes, if_neg hc, specExpandBytes_cons_not_pct hc]
        have hlen₂ : rest.length ≤ m := by
          simp only [List.length_cons] at hlen
          omega
        rw [ih rest hlen₂ (acc ++ utf8Encode c)]
        cases hs : specExpandBytes rest with
        | error e => simp [okMap]
        | ok r =>
          cases r with
          | err e => simp [okMap]
          | ok bs => simp [okMap]

/-- C6 (counterexample): the percent-decoder accepts `"%+5"` — whose two
consumed characters are not hexadecimal digits (`+` has no hex value) —
returning `Ok "\x05"` instead of failing, because Python's `int(val, 16)`
tolerates a sign. -/
theorem c6_counterexample :
    expand_format_chars "%+5" = .ok (.ok (String.mk [Char.ofNat 5])) ∧
    hexVal '+' = none :=
  ⟨rfl, rfl⟩

/-- C6 (amended): the decoder scans left to right; on `%` it consumes
exactly the next two characters, failing if fewer than two remain; it
parses them with Python `int(·, 16)` semantics — which tolerate an optional
sign or surrounding whitespace — failing if that parse fails, and raising
an uncaught `ValueError` when the parsed value is negative (e.g. `"%-5"`);
decoded bytes are accumulated, so multi-byte UTF-8 split across escapes
decodes correctly; the accumulated bytes must finally be well-formed UTF-8,
otherwise the UTF-8 error carrying the undecodable bytes is returned.  All
of this is captured by `specExpand`, which the code decoder equals on every
input. -/
theorem c6_decoder_follows_python_int (s : String) :
    expand_format_chars s = specExpand s := by
  unfold expand_format_chars specExpand
  rw [expandBytes_spec s.toList.length s.toList (Nat.le_refl _) []]
  cases hs : specExpandBytes s.toList with
  | error e => simp [okMap]
  | ok r =>
    cases r with
    | err e => simp [okMap]
    | ok bs => simp [okMap]

/-- Any `Ok` result of `strip_url` whose domain is unregistered carries at
most one query pair (either it came from the generic fallback, which
truncates, or from the only special-case branch that moves to a fresh
domain — the YouTube watch rewrite — which empties the query). -/
theorem strip_result_query_short {s : String} {u : HttpUrl}
    (h1 : strip_url s = .ok (.ok u))
    (hreg : special_cases_lookup u.domain = none) :
    u.query.take 1 = u.query := by
  unfold strip_url at h1
  by_cases hsw : pyStartswith s "http" = true
  · rw [if_neg (by simp [hsw])] at h1
    cases hr : from_str s with
    | error e => rw [hr] at h1; simp at h1
    | ok r =>
      rw [hr] at h1
      cases r with
      | err e => simp at h1
      | ok v =>
        simp only at h1
        unfold strip_dispatch at h1
        cases hlk : special_cases_lookup v.domain with
        | none =>
          rw [hlk] at h1
          unfold strip_last_query at h1
          simp only [Except.ok.injEq, Res.ok.injEq] at h1
          rw [← h1]
          simp [List.take_take]
        | some f =>
          rw [hlk] at h1
          simp only at h1
          rcases lookup_cases hlk with rfl | rfl | rfl | rfl
          · unfold youtube_strip at h1
            split_ifs at h1 with hw
            · cases hdg : dictGet v.query "v" with
              | none => rw [hdg] at h1; simp at h1
              | some vid =>
                rw [hdg] at h1
                simp only [Except.ok.injEq, Res.ok.injEq] at h1
                rw [← h1]
                simp
            · simp only [Except.ok.injEq, Res.ok.injEq] at h1
              rw [← h1] at hreg
              simp [no_query, hlk] at hreg
          · unfold amazon_strip at h1
            cases hidx : ((splitChar '/' v.path.toList).map String.mk).indexOf? "dp" with
            | none => rw [hidx] at h1; simp at h1
            | some idx =>
              rw [hidx] at h1
              simp only at h1
              cases htg : tryGetItem ((splitChar '/' v.path.toList).map String.mk)
                  (idx + 1) with
              | none =>
                rw [htg] at h1
                simp only [Except.ok.injEq, Res.ok.injEq] at h1
                rw [← h1] at hreg
                simp [no_query, hlk] at hreg
              | some pid =>
                rw [htg] at h1
                simp only [Except.ok.injEq, Res.ok.injEq] at h1
                rw [← h1] at hreg
                simp [hlk] at hreg
          · unfold ebay_strip at h1
            cases hidx : ((splitChar '/' v.path.toList).map String.mk).indexOf? "itm" with
            | none => rw [hidx] at h1; simp at h1
            | some idx =>
              rw [hidx] at h1
              simp only at h1
              cases hfind : (((splitChar '/' v.path.toList).map String.mk).drop
                  idx).find? allDigits with
              | none => rw [hfind] at h1; simp at h1
              | some nid =>
                rw [hfind] at h1
                simp only [Except.ok.injEq, Res.ok.injEq] at h1
                rw [← h1] at hreg
                simp [hlk] at hreg
          · unfold no_queryable at h1
            simp only [Except.ok.injEq, Res.ok.injEq] at h1
            rw [← h1] at hreg
            simp [no_query, hlk] at hreg
  · rw [if_pos (by simp [hsw])] at h1
    simp at h1

/-- C8 (counterexample): `strip_url` succeeds on
`"https://a.com/p?x=a-&y=b"` keeping the first pair `x=a-`, but applying
`strip_url` to the serialisation `"https://a.com/p?x=a-"` fails with the
incomplete-match error (the regex's trailing word-boundary rejects the
final `-`), so the second application does not equal the first. -/
theorem c8_counterexample :
    strip_url "https://a.com/p?x=a-&y=b" =
      .ok (.ok ⟨"a.com", "/p", [("x", "a-")], none⟩) ∧
    into_str_default ⟨"a.com", "/p", [("x", "a-")], none⟩ =
      "https://a.com/p?x=a-" ∧
    strip_url "https://a.com/p?x=a-" = .ok (.err (.parse incompleteMsg)) ∧
    (Except.ok (Res.err (UErr.parse incompleteMsg)) :
        Except PyExc (Res HttpUrl UErr)) ≠
      .ok (.ok ⟨"a.com", "/p", [("x", "a-")], none⟩) :=
  ⟨rfl, rfl, rfl, by simp⟩

/-- C8 (amended): the fallback truncation is idempotent whenever the
serialised stripped result re-parses to the stripped value — re-parsing
can fail, e.g. when the retained query value ends in a non-word character
(see the counterexample): under that proviso, applying `strip_url` to the
serialisation returns exactly the first result. -/
theorem c8_fallback_idempotent (s : String) (u : HttpUrl)
    (h1 : strip_url s = .ok (.ok u))
    (hreg : special_cases_lookup u.domain = none)
    (h2 : from_str (into_str_default u) = .ok (.ok u)) :
    strip_url (into_str_default u) = strip_url s := by
  have hq := strip_result_query_short h1 hreg
  have hsw := from_str_ok_startswith h2
  rw [h1]
  unfold strip_url
  rw [if_neg (by simp [hsw]), h2]
  simp only
  unfold strip_dispatch
  rw [hreg]
  unfold strip_last_query
  rw [hq]

theorem c8_fallback_idempotent_witness :
    strip_url "https://google.com/search?v=among" =
      .ok (.ok ⟨"google.com", "/search", [("v", "among")], none⟩) ∧
    special_cases_lookup "google.com" = none ∧
    from_str (into_str_default ⟨"google.com", "/search", [("v", "among")], none⟩) =
      .ok (.ok ⟨"google.com", "/search", [("v", "among")], none⟩) ∧
    strip_url (into_str_default ⟨"google.com", "/search", [("v", "among")], none⟩) =
      strip_url "https://google.com/search?v=among" :=
  ⟨rfl, rfl, rfl,
    c8_fallback_idempotent "https://google.com/search?v=among"
      ⟨"google.com", "/search", [("v", "among")], none⟩ rfl rfl rfl⟩

theorem c9_from_str_invariants_witness :
    from_str "https://a.com/p#f" = .ok (.ok ⟨"a.com", "/p", [], some "#f"⟩) ∧
    ("a.com" ≠ "" ∧
      pyStartswith "a.com" "http://" = false ∧
      pyStartswith "a.com" "https://" = false ∧
      pyEndswith "a.com" "/" = false ∧
      (("/p" : String) = "" ∨ pyStartswith "/p" "/" = true) ∧
      ((some "#f" : Option String) = none ∨
        ∃ f, (some "#f" : Option String) = some f ∧
          pyStartswith f "#" = true ∧ f ≠ "")) :=
  ⟨rfl, c9_from_str_invariants "https://a.com/p#f" ⟨"a.com", "/p", [], some "#f"⟩ rfl⟩

end UrlStrip
